import Mathlib

/-!
Verification development for the Pacer quadruped controller.

This file gives a shallow embedding, in Lean 4, of the parts of the Pacer
source that the specification talks about:

* the phase-gated robot state store of src/src/include/Pacer/robot.h
  (ControllerPhase, unit_e, check_phase, increment_phase, the joint state
  maps and their accessors, the contact map);
* the QP/LCP helper solve_qp and the Stage I / Stage II data construction
  of the friction estimator in src/estimatefrict.cpp;
* the final torque assembly of Quadruped::control and the torque-limit
  table of Quadruped::init in src/Examples/Quadruped/quadruped.cc.

Real values (C++ double) are modelled as rationals; machine vectors as
lists or as functions out of ℕ; C++ exceptions as Except.  The external
Lemke LCP solver (Moby::Optimization::lcp_lemke_regularized) is a
parameter of the embedding; where a property depends on its behaviour we
assume only its documented contract (it returns a solution of the LCP it
was handed).
-/

namespace Pacer

/-- Controller phases, robot.h lines 343-350. -/
inductive ControllerPhase
  | INITIALIZATION
  | PERCEPTION
  | PLANNING
  | CONTROL
  | WAITING
  | INCREMENT
deriving DecidableEq, Fintype, Repr

/-- Semantic units of the state store, robot.h lines 286-301. -/
inductive unit_e
  | misc_sensor
  | position
  | velocity
  | acceleration
  | load
  | misc_planner
  | position_goal
  | velocity_goal
  | acceleration_goal
  | misc_controller
  | load_goal
  | initialization
  | clean_up
deriving DecidableEq, Fintype, Repr

open ControllerPhase unit_e Matrix

deriving instance DecidableEq for Except

/-- Robot::check_phase, robot.h lines 367-421.  Enforces that values are only
being assigned during the correct phase.  The source mutates
`controller_phase` (via increment_phase with an explicit phase argument) and
throws std::runtime_error on a violation; here the function takes the current
phase and returns the new phase, or the error message. -/
def check_phase (u : unit_e) (p : ControllerPhase) : Except String ControllerPhase :=
  match u with
  | .initialization =>
    if p ≠ INITIALIZATION ∧ p ≠ WAITING then
      .error "controller must be in INITIALIZATION phase to set Pacer internal parameters."
    else .ok p
  | .misc_sensor | .position | .velocity | .acceleration | .load =>
    if p ≠ PERCEPTION ∧ p ≠ INITIALIZATION ∧ p ≠ WAITING then
      .error "controller must be in PERCEPTION, INITIALIZATION or WAITING phase to set state information"
    else .ok p
  | .misc_planner | .position_goal | .velocity_goal | .acceleration_goal =>
    if p ≠ PLANNING ∧ p ≠ INITIALIZATION ∧ p ≠ WAITING then
      if p = PERCEPTION then
        -- NOTE in source: first PLANNING call from PERCEPTION increments to PLANNING
        .ok PLANNING
      else
        .error "controller must be in PLANNING phase to set goal state information"
    else .ok p
  | .misc_controller | .load_goal =>
    if p ≠ CONTROL ∧ p ≠ INITIALIZATION ∧ p ≠ WAITING then
      if p = PLANNING then
        -- NOTE in source: first CONTROL call from PLANNING increments to CONTROL
        .ok CONTROL
      else if p = PERCEPTION then
        -- source robot.h lines 406-409: PERCEPTION also increments straight to CONTROL
        .ok CONTROL
      else
        .error "controller must be in CONTROL phase to set commands"
    else .ok p
  | .clean_up =>
    if p ≠ WAITING ∧ p ≠ INITIALIZATION then
      .error "controller must be in WAITING or INITIALIZATION phase to perform clean_up duties."
    else .ok p

/-- Robot::increment_phase, robot.h lines 428-458.  With the INCREMENT
argument it advances the machine one step; with an explicit phase argument it
just installs that phase. -/
def increment_phase (phase : ControllerPhase) (cur : ControllerPhase) :
    Except String ControllerPhase :=
  if phase = INCREMENT then
    match cur with
    | INITIALIZATION => .ok PERCEPTION
    | WAITING => .error "Cannot increment waiting controller. call reset_phase."
    | PERCEPTION => .ok PLANNING
    | PLANNING => .ok CONTROL
    | CONTROL => .ok WAITING
    | INCREMENT => .error "controller state dropped off list of valid states"
  else .ok phase

/-- Robot::reset_phase, robot.h lines 423-426: unconditionally installs
PERCEPTION. -/
def reset_phase (_cur : ControllerPhase) : ControllerPhase := PERCEPTION

/-! ## The joint state store

`_state : std::map<unit_e, std::map<std::string, Ravelin::VectorNd>>` is
modelled as a function from unit to an association list from joint id to
value vector.  Keeping the inner map as an explicit association list lets the
default-inserting behaviour of std::map::operator[] (claim C10) be observed:
an absent key is materialised with a zero-length vector. -/

/-- Inner joint map: joint id to value vector. -/
abbrev JMap := List (String × List ℚ)

/-- std::map lookup (find). -/
def mapFind (m : List (String × α)) (k : String) : Option α :=
  match m with
  | [] => none
  | (k2, v) :: rest => if k2 = k then some v else mapFind rest k

/-- std::map assignment `m[k] = v`: replace if present, insert otherwise. -/
def mapInsert (m : List (String × α)) (k : String) (v : α) : List (String × α) :=
  match m with
  | [] => [(k, v)]
  | (k2, v2) :: rest => if k2 = k then (k, v) :: rest else (k2, v2) :: mapInsert rest k v

/-- std::map::operator[]: default-inserts an element when the key is absent,
returning the (possibly updated) map together with the element found or
created. -/
def mapIndex [Inhabited α] (m : List (String × α)) (k : String) :
    List (String × α) × α :=
  match mapFind m k with
  | some v => (m, v)
  | none => (m ++ [(k, default)], default)

/-- The slice of Robot state that the phase-gated store operations touch. -/
structure RobotState where
  controller_phase : ControllerPhase
  state : unit_e → JMap

/-- Static joint model data set up by Robot::compile: `_joint_ids`,
`_id_dof_coord_map` and NUM_JOINT_DOFS. -/
structure JointModel where
  joint_ids : List String
  dof_coord : String → List ℕ
  NUM_JOINT_DOFS : ℕ

/-- Robot::get_joint_value (VectorNd overload), robot.h lines 474-478:
`return _state[u][id];`.  Both operator[] applications default-insert, so the
read returns a zero-length vector (never an error) and may grow the store. -/
def get_joint_value (r : RobotState) (id : String) (u : unit_e) :
    RobotState × List ℚ :=
  let (m, v) := mapIndex (r.state u) id
  ({ r with state := Function.update r.state u m }, v)

/-- Robot::set_joint_value (VectorNd overload), robot.h lines 513-529:
check_phase, then size-checked assignment into `_state[u][id]`. -/
def set_joint_value (r : RobotState) (id : String) (u : unit_e)
    (dof_val : List ℚ) : Except String RobotState := do
  let p ← check_phase u r.controller_phase
  let (m, dof) := mapIndex (r.state u) id
  if dof.length ≠ dof_val.length then
    .error ("Missized dofs in joint " ++ id)
  else
    .ok { controller_phase := p, state := Function.update r.state u (mapInsert m id dof_val) }

/-- The vector stored for one joint by the write loop of
set_joint_generalized_value: entry j takes `generalized_vec[dof[j]]`. -/
def genWrite (jm : JointModel) (gv : List ℚ) (key : String) : List ℚ :=
  (List.range (jm.dof_coord key).length).map
    (fun j => gv.getD ((jm.dof_coord key).getD j 0) 0)

/-- The per-joint body of Robot::set_joint_generalized_value, robot.h lines
756-764: for each joint key, fetch its coordinate list and its stored vector,
check sizes, and overwrite entry j with `generalized_vec[dof[j]]`. -/
def set_gen_loop (jm : JointModel) (gv : List ℚ) :
    JMap → List String → Except String JMap
  | m, [] => .ok m
  | m, key :: rest =>
    let dof := jm.dof_coord key
    let (m1, dof_val) := mapIndex m key
    if dof.length ≠ dof_val.length then
      .error ("Missized dofs in joint " ++ key)
    else
      set_gen_loop jm gv (mapInsert m1 key (genWrite jm gv key)) rest

/-- Robot::set_joint_generalized_value, robot.h lines 742-769. -/
def set_joint_generalized_value (jm : JointModel) (r : RobotState) (u : unit_e)
    (generalized_vec : List ℚ) : Except String RobotState := do
  let p ← check_phase u r.controller_phase
  if generalized_vec.length ≠ jm.NUM_JOINT_DOFS then
    .error "Missized generalized vector"
  else do
    let m ← set_gen_loop jm generalized_vec (r.state u) jm.joint_ids
    .ok { controller_phase := p, state := Function.update r.state u m }

/-- One entry of the gather loop of Robot::get_joint_generalized_value:
`for j < dof_val.size: generalized_vec[dof[j]] = dof_val[j]`. -/
def scatterWrites (gv : List ℚ) (dof : List ℕ) (dof_val : List ℚ) : List ℚ :=
  (List.range dof_val.length).foldl
    (fun acc j => acc.set (dof.getD j 0) (dof_val.getD j 0)) gv

/-- The iteration over `_state[u]` in Robot::get_joint_generalized_value. -/
def gen_gather (jm : JointModel) : JMap → List ℚ → List ℚ
  | [], gv => gv
  | (id, dof_val) :: rest, gv =>
    gen_gather jm rest (scatterWrites gv (jm.dof_coord id) dof_val)

/-- Robot::get_joint_generalized_value, robot.h lines 771-782: zero a vector
of length NUM_JOINT_DOFS, then scatter every stored per-joint vector into it
through the joint coordinate map. -/
def get_joint_generalized_value (jm : JointModel) (r : RobotState) (u : unit_e) :
    List ℚ :=
  gen_gather jm (r.state u) (List.replicate jm.NUM_JOINT_DOFS (0 : ℚ))

/-- Robot::get_data (robot.h lines 96-132) restricted to the key lookup: a
missing key raises `Variable not found in data` (std::runtime_error). -/
def get_data (dm : List (String × α)) (n : String) : Except String α :=
  match mapFind dm n with
  | some v => .ok v
  | none => .error ("Variable: " ++ n ++ " not found in data!")

/-! ## Contacts -/

/-- Robot::contact_t, robot.h lines 150-159. -/
structure contact_t where
  id : String
  point : ℚ × ℚ × ℚ
  normal : ℚ × ℚ × ℚ
  tangent : ℚ × ℚ × ℚ
  impulse : ℚ × ℚ × ℚ
  mu_coulomb : ℚ
  mu_viscous : ℚ
  restitution : ℚ
  compliant : Bool
deriving DecidableEq, Repr

/-- The slice of Robot state the contact operations touch:
`_id_contacts_map` (link id to contact list) and `_link_ids`. -/
structure ContactState where
  controller_phase : ControllerPhase
  id_contacts_map : String → List contact_t
  link_ids : List String

/-- Robot::add_contact, robot.h lines 218-228 / 251-255: phase-checked
push_back onto `_id_contacts_map[c.id]`. -/
def add_contact (cs : ContactState) (c : contact_t) : Except String ContactState := do
  let p ← check_phase .misc_sensor cs.controller_phase
  .ok { cs with
        controller_phase := p
        id_contacts_map := fun id =>
          if id = c.id then cs.id_contacts_map id ++ [c] else cs.id_contacts_map id }

/-- Robot::reset_contact, robot.h lines 280-283: phase-checked clear. -/
def reset_contact (cs : ContactState) : Except String ContactState := do
  let p ← check_phase .clean_up cs.controller_phase
  .ok { cs with controller_phase := p, id_contacts_map := fun _ => [] }

/-- Robot::get_contacts, robot.h lines 257-259: copies the whole map out. -/
def get_contacts (cs : ContactState) : String → List contact_t :=
  cs.id_contacts_map

/-- Robot::get_all_contacts, robot.h lines 261-267: walk `_link_ids`,
append each link entry of the map to the supplied vector, return its size. -/
def get_all_contacts (cs : ContactState) (contacts : List contact_t) :
    List contact_t × ℕ :=
  let out := cs.link_ids.foldl (fun acc lid => acc ++ cs.id_contacts_map lid) contacts
  (out, out.length)

/-! ## The QP/LCP helper of the friction estimator (estimatefrict.cpp)

Matrices and vectors of the Moby linear-algebra layer are modelled as total
functions out of ℕ; every statement about them carries the intended
dimensions explicitly.  The external regularized Lemke solver is a parameter
`lemke`; `none` models its failure return. -/

/-- Function-valued matrix (entries beyond the intended dimensions are
irrelevant to every statement below). -/
abbrev MatF := ℕ → ℕ → ℚ

/-- Function-valued vector. -/
abbrev VecF := ℕ → ℚ

/-- All-zero matrix (`set_zero`). -/
def zeroM : MatF := fun _ _ => 0

/-- In-place `negate()` of a matrix, modelled functionally. -/
def negM (M : MatF) : MatF := fun i j => -(M i j)

/-- In-place `negate()` of a vector, modelled functionally. -/
def negV (v : VecF) : VecF := fun i => -(v i)

/-- `Mat::transpose`. -/
def transposeF (M : MatF) : MatF := fun i j => M j i

/-- setblock, estimatefrict.cpp lines 20-24: overwrite the P-by-Q block of M
whose top-left corner is (I,J) with m. -/
def setblock (M : MatF) (I J P Q : ℕ) (m : MatF) : MatF :=
  fun i j => if I ≤ i ∧ i < I + P ∧ J ≤ j ∧ j < J + Q then m (i - I) (j - J) else M i j

/-- `set_sub_vec(off, w)` for a w of the given length. -/
def set_sub_vec (v : VecF) (off len : ℕ) (w : VecF) : VecF :=
  fun i => if off ≤ i ∧ i < off + len then w (i - off) else v i

/-- Sum of f over 0, ..., n-1, recursively (kept executable so that concrete
LCP instances evaluate). -/
def sumTo (f : ℕ → ℚ) : ℕ → ℚ
  | 0 => 0
  | n + 1 => sumTo f n + f n

/-- Matrix-times-vector over the first `cols` entries. -/
def mvmul (M : MatF) (cols : ℕ) (v : VecF) : VecF :=
  fun i => sumTo (fun j => M i j * v j) cols

/-- Matrix product with the given inner dimension. -/
def mmulF (A : MatF) (inner : ℕ) (B : MatF) : MatF :=
  fun i j => sumTo (fun k => A i k * B k j) inner

/-- The LCP matrix assembled by solve_qp, estimatefrict.cpp lines 36-54,
following the source's exact sequence of setblock calls and in-place
negations (Q and A are negated part-way through the construction). -/
def buildMMM (n m : ℕ) (Q A : MatF) : MatF :=
  let MMM1 := setblock zeroM 0 0 n n Q
  let MMM2 := setblock MMM1 n n n n Q
  let Qn := negM Q
  let MMM3 := setblock MMM2 0 n n n Qn
  let MMM4 := setblock MMM3 n 0 n n Qn
  let AT := transposeF A
  let MMM5 := setblock MMM4 n (2 * n) n m AT
  let ATn := negM AT
  let MMM6 := setblock MMM5 0 (2 * n) n m ATn
  let MMM7 := setblock MMM6 (2 * n) 0 m n A
  let An := negM A
  setblock MMM7 (2 * n) n m n An

/-- The LCP vector assembled by solve_qp, estimatefrict.cpp lines 56-63
(c and b are negated in place before being copied in). -/
def buildqqq (n m : ℕ) (c b : VecF) : VecF :=
  let q1 := set_sub_vec (fun _ => 0) 0 n c
  let cn := negV c
  let q2 := set_sub_vec q1 n n cn
  let bn := negV b
  set_sub_vec q2 (2 * n) m bn

/-- Everything solve_qp leaves behind: the four reference arguments (which it
negated in place), the extracted solution x and the success flag. -/
structure QPResult where
  Q : MatF
  c : VecF
  A : MatF
  b : VecF
  x : VecF
  flag : Bool

/-- solve_qp, estimatefrict.cpp lines 26-76.  `n = Q.rows()`, `m = A.rows()`.
On Lemke failure zzz keeps its zero initialisation, so x is extracted as all
zeros and the flag is false. -/
def solve_qp (lemke : MatF → VecF → ℕ → Option VecF) (n m : ℕ)
    (Q : MatF) (c : VecF) (A : MatF) (b : VecF) : QPResult :=
  let MMM := buildMMM n m Q A
  let qqq := buildqqq n m c b
  match lemke MMM qqq (2 * n + m) with
  | none =>
    { Q := negM Q, c := negV c, A := negM A, b := negV b, x := fun _ => 0, flag := false }
  | some zzz =>
    { Q := negM Q, c := negV c, A := negM A, b := negV b,
      x := fun i => zzz i - zzz (n + i), flag := true }

/-- The documented contract of Moby lcp_lemke_regularized: z solves the LCP
(M, q) of the given dimension, i.e. z is nonnegative, w = M z + q is
nonnegative, and z is complementary to w. -/
def isLCPSolution (M : MatF) (q : VecF) (dim : ℕ) (z : VecF) : Prop :=
  (∀ i < dim, 0 ≤ z i) ∧
  (∀ i < dim, 0 ≤ mvmul M dim z i + q i) ∧
  sumTo (fun i => z i * (mvmul M dim z i + q i)) dim = 0

/-! ### Stage-I data of friction_estimation (estimatefrict.cpp, USE_D not
defined, so the [N S T] branch at lines 161-199 is the compiled one) -/

/-- ST extraction from D, lines 162-173: ST(j,i) = D(j, i*nk) and
ST(j, nc+i) = D(j, i*nk+1) for i < nc. -/
def buildST (D : MatF) (nc nk : ℕ) : MatF :=
  fun j col =>
    if col < nc then D j (col * nk)
    else if col < 2 * nc then D j ((col - nc) * nk + 1)
    else 0

/-- R = [N ST], lines 176-178. -/
def buildR (N ST : MatF) (ngc nc : ℕ) : MatF :=
  setblock (setblock zeroM 0 0 ngc nc N) 0 nc ngc (2 * nc) ST

/-- Q = transpose(R) * R, lines 181-183. -/
def stage1Q (R : MatF) (ngc : ℕ) : MatF := mmulF (transposeF R) ngc R

/-- c = -(transpose(R) * jstar), lines 184-187 (built, then negated). -/
def stage1c (R : MatF) (ngc : ℕ) (jstar : VecF) : VecF :=
  negV (mvmul (transposeF R) ngc jstar)

/-- The constraint matrix of Stage I, lines 191-196: the first nc rows of an
identity (A.set_zero(); A(i,i) = 1 for i < nc). -/
def stage1A (nc : ℕ) : MatF := fun i j => if i = j ∧ i < nc then 1 else 0

/-- b = 0, lines 193-194. -/
def stage1b : VecF := fun _ => 0

/-! ### The μ extraction loop (estimatefrict.cpp lines 383-391) -/

/-- IEEE sqrt on an exactly represented double: NaN (modelled as none) for a
negative argument, otherwise a finite value given by the abstract
square-root function s. -/
def sqrtD (s : ℚ → ℚ) (x : ℚ) : Option ℚ :=
  if x < 0 then none else some (s x)

/-- One row of the μ loop, lines 384-387: with cf = z (line 381),
cn = cf[i], beta_s = cf[nc+i], beta_t = cf[2nc+i]:
if cn > 0 then MU(i,0) = sqrt(beta_s^2 + beta_t^2)/cn else MU(i,0) = sqrt(-1)
(which is NaN). -/
def MU_entry (s : ℚ → ℚ) (cf : VecF) (nc i : ℕ) : Option ℚ :=
  if 0 < cf i then
    (sqrtD s (cf (nc + i) * cf (nc + i) + cf (2 * nc + i) * cf (2 * nc + i))).map
      (fun r => r / cf i)
  else
    sqrtD s (-1)

/-- The whole column MU(0..nc-1, 0) produced by the loop at lines 383-391. -/
def frictionMU (s : ℚ → ℚ) (cf : VecF) (nc : ℕ) : List (Option ℚ) :=
  (List.range nc).map (fun i => MU_entry s cf nc i)

/-! ### Exact-arithmetic residuals for Stage I / Stage II (claims about
lines 198-213 and 236-370), over Mathlib matrices -/

/-- Squared least-squares residual of R z against jerr
(`err = R*z - j_error; err.norm()`). -/
def resSq {g n : ℕ} (R : Matrix (Fin g) (Fin n) ℚ) (z : Fin n → ℚ)
    (jerr : Fin g → ℚ) : ℚ :=
  ∑ i, (R.mulVec z i - jerr i) ^ 2

/-! ## Quadruped::control torque assembly (quadruped.cc) -/

/-- The final command assembly of Quadruped::control, quadruped.cc lines
203-206: after the finiteness check of uff, `u = ufb; u += uff;`.  No
clamping happens between this sum and the return of u. -/
def control_u (ufb uff : List ℚ) : List ℚ := List.zipWith (· + ·) ufb uff

/-- The per-joint torque-limit table written by Quadruped::init,
quadruped.cc lines 397-413. -/
def torque_limits_ : List (String × ℚ) :=
  [("BODY_JOINT", 26/10),
   ("LF_HIP_AA", 26/10), ("LF_HIP_FE", 26/10), ("LF_LEG_FE", 26/10),
   ("RF_HIP_AA", 26/10), ("RF_HIP_FE", 26/10), ("RF_LEG_FE", 26/10),
   ("LH_HIP_AA", 26/10), ("LH_HIP_FE", 6), ("LH_LEG_FE", 26/10),
   ("RH_HIP_AA", 26/10), ("RH_HIP_FE", 6), ("RH_LEG_FE", 26/10)]

/-- Clamp to a symmetric interval. -/
def clampT (x lim : ℚ) : ℚ := max (-lim) (min x lim)

/-- Modelled from the spec: PID::control is called by Quadruped::control but
its definition is not among the supplied sources; spec section 4.5 defines
the feedback torque of a joint as kp ⬝ e + kv ⬝ ė + ki ⬝ acc, clamped to the
joint's torque limit. -/
def pid_ufb (kp kv ki e ed acc lim : ℚ) : ℚ :=
  clampT (kp * e + kv * ed + ki * acc) lim

/-! ## Definitions written from the specification's words, for comparison
with the source-derived definitions above -/

/-- The spec's LCP block matrix (section 4.6): rows [[Q,-Q,-At],[-Q,Q,At],
[A,-A,0]] where At is the transpose of A. -/
def MMM_spec (n : ℕ) (Q A : MatF) : MatF := fun i j =>
  if i < n then
    if j < n then Q i j
    else if j < 2 * n then -(Q i (j - n))
    else -(A (j - 2 * n) i)
  else if i < 2 * n then
    if j < n then -(Q (i - n) j)
    else if j < 2 * n then Q (i - n) (j - n)
    else A (j - 2 * n) (i - n)
  else
    if j < n then A (i - 2 * n) j
    else if j < 2 * n then -(A (i - 2 * n) (j - n))
    else 0

/-- The spec's LCP vector (section 4.6): [c, -c, -b]. -/
def qqq_spec (n : ℕ) (c b : VecF) : VecF := fun i =>
  if i < n then c i else if i < 2 * n then -(c (i - n)) else -(b (i - 2 * n))

/-- True when an Except carries a value (the call did not throw). -/
def exceptOk : Except ε α → Bool
  | .ok _ => true
  | .error _ => false

/-- The corrected write-gating table actually implemented by check_phase:
which phases let a write of each unit class through (possibly advancing the
phase). -/
def allowedWrite (u : unit_e) (p : ControllerPhase) : Bool :=
  match u with
  | .initialization => p = INITIALIZATION ∨ p = WAITING
  | .misc_sensor | .position | .velocity | .acceleration | .load =>
    p = PERCEPTION ∨ p = INITIALIZATION ∨ p = WAITING
  | .misc_planner | .position_goal | .velocity_goal | .acceleration_goal =>
    p = PLANNING ∨ p = INITIALIZATION ∨ p = WAITING ∨ p = PERCEPTION
  | .misc_controller | .load_goal =>
    p = CONTROL ∨ p = INITIALIZATION ∨ p = WAITING ∨ p = PLANNING ∨ p = PERCEPTION
  | .clean_up => p = WAITING ∨ p = INITIALIZATION

/-- Adding a batch of contacts one by one through Robot::add_contact. -/
def add_contacts (cs : ContactState) : List contact_t → Except String ContactState
  | [] => .ok cs
  | c :: rest => do
    let cs1 ← add_contact cs c
    add_contacts cs1 rest

/-! ## Concrete Stage-I data for one contact (used to exercise the friction
estimator's Stage-I LCP on an explicit instance: one contact, three
generalized coordinates, N the first axis, tangents the other two, so that
R = [N S T] is the identity) -/

/-- N (3 x 1): the single contact normal is the first coordinate axis. -/
def Ncx : MatF := fun j i => if j = 0 ∧ i = 0 then 1 else 0

/-- D = [S T -S -T] (3 x 4) for that contact: S the second axis, T the
third. -/
def Dcx : MatF := fun j i =>
  if (j = 1 ∧ i = 0) ∨ (j = 2 ∧ i = 1) then 1
  else if (j = 1 ∧ i = 2) ∨ (j = 2 ∧ i = 3) then -1 else 0

/-- Observed impulse error j_err = (1, -1, 0): unit push along the normal
and a unit pull along the first tangent. -/
def jstarcx : VecF := fun i => if i = 0 then 1 else if i = 1 then -1 else 0

/-- An exact solution of the Stage-I LCP for that data (u = e0, v = e1,
lambda = 0), whose extraction x = u - v = (1, -1, 0) carries a negative
tangential impulse. -/
def zzzcx : VecF := fun i => if i = 0 ∨ i = 4 then 1 else 0

/-- R = [N ST] assembled from the concrete data (the identity on 3 x 3). -/
def Rcx : MatF := buildR Ncx (buildST Dcx 1 4) 3 1

/-! # Helper lemmas -/

theorem sumTo_eq_sum (f : ℕ → ℚ) : ∀ n, sumTo f n = ∑ j ∈ Finset.range n, f j := by
  intro n
  induction n with
  | zero => simp [sumTo]
  | succ n ih => rw [sumTo, ih, Finset.sum_range_succ]

/-- Over the rationals, a matrix whose square form vanishes against RᵀR
vanishes against R itself: null(RᵀR) = null(R). -/
theorem matrix_RP_zero {g n k : ℕ} (R : Matrix (Fin g) (Fin n) ℚ)
    (P : Matrix (Fin n) (Fin k) ℚ) (h : Rᵀ * R * P = 0) : R * P = 0 := by
  have hBtB : (R * P)ᵀ * (R * P) = 0 := by
    have hassoc : (R * P)ᵀ * (R * P) = Pᵀ * (Rᵀ * R * P) := by
      rw [Matrix.transpose_mul]
      simp [Matrix.mul_assoc]
    rw [hassoc, h, Matrix.mul_zero]
  ext i j
  have hentry : ((R * P)ᵀ * (R * P)) j j = 0 := by rw [hBtB]; rfl
  rw [Matrix.mul_apply] at hentry
  simp only [Matrix.transpose_apply] at hentry
  have hnn : ∀ x ∈ Finset.univ, 0 ≤ (R * P) x j * (R * P) x j :=
    fun x _ => mul_self_nonneg _
  have hz := (Finset.sum_eq_zero_iff_of_nonneg hnn).mp hentry i (Finset.mem_univ i)
  have hz2 := mul_self_eq_zero.mp hz
  simpa using hz2

theorem mapFind_append_of_none {α : Type} (m : List (String × α)) (k : String)
    (v : α) (h : mapFind m k = none) : mapFind (m ++ [(k, v)]) k = some v := by
  induction m with
  | nil => simp [mapFind]
  | cons p rest ih =>
    obtain ⟨k2, w⟩ := p
    by_cases hk : k2 = k
    · simp [mapFind, hk] at h
    · simp only [List.cons_append]
      simp only [mapFind, hk, if_false] at h ⊢
      exact ih h

theorem setblock_in (M : MatF) (I J P Q2 : ℕ) (m : MatF) (i j : ℕ)
    (h : I ≤ i ∧ i < I + P ∧ J ≤ j ∧ j < J + Q2) :
    setblock M I J P Q2 m i j = m (i - I) (j - J) := if_pos h

theorem setblock_out (M : MatF) (I J P Q2 : ℕ) (m : MatF) (i j : ℕ)
    (h : ¬(I ≤ i ∧ i < I + P ∧ J ≤ j ∧ j < J + Q2)) :
    setblock M I J P Q2 m i j = M i j := if_neg h

/-- Within the assembled dimensions the solve_qp LCP matrix agrees with the
spec's block form. -/
theorem buildMMM_eq (n m : ℕ) (Q A : MatF) (i j : ℕ)
    (hi : i < 2 * n + m) (hj : j < 2 * n + m) :
    buildMMM n m Q A i j = MMM_spec n Q A i j := by
  simp only [buildMMM, MMM_spec, setblock, zeroM, negM, transposeF]
  split_ifs <;> first
    | rfl
    | omega

/-- Within the assembled dimension the solve_qp LCP vector agrees with the
spec's [c, -c, -b]. -/
theorem buildqqq_eq (n m : ℕ) (c b : VecF) (i : ℕ) (hi : i < 2 * n + m) :
    buildqqq n m c b i = qqq_spec n c b i := by
  simp only [buildqqq, qqq_spec, set_sub_vec, negV]
  split_ifs <;> first
    | rfl
    | omega

/-- Folding append over a list of keys is flatMap. -/
theorem foldl_append_flatMap {α β : Type} (L : List α) (f : α → List β) :
    ∀ init : List β, L.foldl (fun acc l => acc ++ f l) init = init ++ L.flatMap f := by
  induction L with
  | nil => intro init; simp
  | cons a rest ih =>
    intro init
    simp only [List.foldl_cons, List.flatMap_cons, ih (init ++ f a), List.append_assoc]

/-- add_contacts succeeds from any sensor-legal phase and appends each
contact to the map entry of its link, keeping phase and link ids. -/
theorem add_contacts_spec (cl : List contact_t) :
    ∀ cs : ContactState,
    (cs.controller_phase = PERCEPTION ∨ cs.controller_phase = INITIALIZATION ∨
      cs.controller_phase = WAITING) →
    ∃ cs2, add_contacts cs cl = .ok cs2 ∧
      cs2.controller_phase = cs.controller_phase ∧
      cs2.link_ids = cs.link_ids ∧
      ∀ id, cs2.id_contacts_map id =
        cs.id_contacts_map id ++ cl.filter (fun c2 => decide (c2.id = id)) := by
  induction cl with
  | nil =>
    intro cs _
    exact ⟨cs, rfl, rfl, rfl, fun id => by simp⟩
  | cons c rest ih =>
    intro cs hphase
    have hcp : check_phase misc_sensor cs.controller_phase =
        Except.ok cs.controller_phase := by
      rcases hphase with h | h | h <;> rw [h] <;> rfl
    have hadd : add_contact cs c = Except.ok
        { cs with id_contacts_map := fun id =>
            if id = c.id then cs.id_contacts_map id ++ [c] else cs.id_contacts_map id } := by
      simp [add_contact, hcp, Except.bind, Bind.bind]
    obtain ⟨cs2, h2, hph, hli, hmap⟩ := ih
      { cs with id_contacts_map := fun id =>
          if id = c.id then cs.id_contacts_map id ++ [c] else cs.id_contacts_map id }
      hphase
    refine ⟨cs2, ?_, hph, hli, ?_⟩
    · simp only [add_contacts, hadd, Except.bind, Bind.bind]
      exact h2
    · intro id
      rw [hmap id]
      simp only [List.filter_cons]
      by_cases hid : c.id = id
      · simp [hid, List.append_assoc]
      · have hid2 : ¬ id = c.id := fun h => hid h.symm
        simp [hid, hid2]

/-- Grouping a contact list by link id and flattening is a permutation of it,
when the link ids are distinct and every contact lies on a listed link. -/
theorem flatMap_filter_perm (L : List String) :
    ∀ cl : List contact_t, L.Nodup → (∀ c ∈ cl, c.id ∈ L) →
      (L.flatMap (fun l => cl.filter (fun c2 => decide (c2.id = l)))).Perm cl := by
  intro cl
  induction cl with
  | nil =>
    intro _ _
    have : L.flatMap (fun l => ([] : List contact_t).filter
        (fun c2 => decide (c2.id = l))) = [] := by
      simp
    rw [this]
  | cons c rest ih =>
    intro hnd hmem
    obtain ⟨s, t, hst⟩ := List.append_of_mem (hmem c (by simp))
    have hsplit : c.id ∉ s ∧ c.id ∉ t ∧ s.Nodup ∧ t.Nodup := by
      rw [hst, List.nodup_append] at hnd
      obtain ⟨hs, hat, hd⟩ := hnd
      rw [List.nodup_cons] at hat
      exact ⟨fun hm => hd hm (by simp), hat.1, hs, hat.2⟩
    have hcongr : ∀ (L2 : List String), c.id ∉ L2 →
        L2.flatMap (fun l => (c :: rest).filter (fun c2 => decide (c2.id = l))) =
        L2.flatMap (fun l => rest.filter (fun c2 => decide (c2.id = l))) := by
      intro L2 hno
      refine List.flatMap_congr (fun l hl => ?_)
      have : ¬ (c.id = l) := fun hc => hno (hc ▸ hl)
      simp [List.filter_cons, this]
    have hmid : (c :: rest).filter (fun c2 => decide (c2.id = c.id)) =
        c :: rest.filter (fun c2 => decide (c2.id = c.id)) := by
      simp [List.filter_cons]
    rw [hst, List.flatMap_append, List.flatMap_cons, hcongr s hsplit.1,
      hcongr t hsplit.2.1, hmid]
    have hperm1 : (s.flatMap (fun l => rest.filter (fun c2 => decide (c2.id = l))) ++
        ((c :: rest.filter (fun c2 => decide (c2.id = c.id))) ++
          t.flatMap (fun l => rest.filter (fun c2 => decide (c2.id = l))))).Perm
        (c :: (s.flatMap (fun l => rest.filter (fun c2 => decide (c2.id = l))) ++
          (rest.filter (fun c2 => decide (c2.id = c.id)) ++
            t.flatMap (fun l => rest.filter (fun c2 => decide (c2.id = l)))))) := by
      rw [List.cons_append]
      exact List.perm_middle
    refine hperm1.trans (List.Perm.cons c ?_)
    have hrest : ∀ c2 ∈ rest, c2.id ∈ L := fun c2 h2 => hmem c2 (by simp [h2])
    have := ih hnd hrest
    rw [hst, List.flatMap_append, List.flatMap_cons] at this
    exact this

theorem getD_set (l : List ℚ) (i k : ℕ) (v : ℚ) :
    (l.set i v).getD k 0 = if k = i ∧ i < l.length then v else l.getD k 0 := by
  rw [List.getD_eq_getElem?_getD, List.getD_eq_getElem?_getD, List.getElem?_set]
  by_cases h1 : i = k
  · subst h1
    by_cases h2 : i < l.length
    · simp [h2]
    · simp [h2, List.getElem?_eq_none (by omega : l.length ≤ i)]
  · have h3 : ¬(k = i ∧ i < l.length) := fun hc => h1 hc.1.symm
    simp [h1, h3]

theorem range_map_getD (l : List ℕ) (f : ℕ → ℚ) :
    (List.range l.length).map (fun j => f (l.getD j 0)) = l.map f := by
  apply List.ext_getElem
  · simp
  · intro i h1 h2
    simp only [List.getElem_map, List.getElem_range]
    rw [List.getD_eq_getElem l 0 (by simpa using h2)]

theorem mapFind_mapInsert_ne {α : Type} (m : List (String × α)) (k k2 : String)
    (v : α) (h : k2 ≠ k) : mapFind (mapInsert m k v) k2 = mapFind m k2 := by
  have hs : ¬ k = k2 := Ne.symm h
  induction m with
  | nil => simp [mapInsert, mapFind, hs]
  | cons p rest ih =>
    obtain ⟨kp, wp⟩ := p
    by_cases hk : kp = k
    · subst hk
      simp [mapInsert, mapFind, hs]
    · simp only [mapInsert, hk, if_false, mapFind]
      by_cases hk2 : kp = k2
      · simp [hk2]
      · simp [hk2, ih]

theorem mapFind_some_of_mem_keys {α : Type} (m : List (String × α)) (k : String)
    (h : k ∈ m.map Prod.fst) : ∃ w, mapFind m k = some w := by
  induction m with
  | nil => simp at h
  | cons p rest ih =>
    obtain ⟨kp, wp⟩ := p
    by_cases hk : kp = k
    · exact ⟨wp, by simp [mapFind, hk]⟩
    · have : k ∈ rest.map Prod.fst := by
        simp only [List.map_cons, List.mem_cons] at h
        rcases h with h | h
        · exact absurd h.symm hk
        · exact h
      obtain ⟨w, hw⟩ := ih this
      exact ⟨w, by simp [mapFind, hk, hw]⟩

theorem mapFind_mem {α : Type} (m : List (String × α)) (k : String) (w : α)
    (h : mapFind m k = some w) : (k, w) ∈ m := by
  induction m with
  | nil => simp [mapFind] at h
  | cons p rest ih =>
    obtain ⟨kp, wp⟩ := p
    by_cases hk : kp = k
    · subst hk
      have hw : wp = w := by simpa [mapFind] using h
      subst hw
      simp
    · simp only [mapFind, hk, if_false] at h
      exact List.mem_cons_of_mem _ (ih h)

theorem mapInsert_eq_map {α : Type} (m : List (String × α)) (k : String) (v : α)
    (hnd : (m.map Prod.fst).Nodup) (h : k ∈ m.map Prod.fst) :
    mapInsert m k v = m.map (fun p => if p.1 = k then (k, v) else p) := by
  induction m with
  | nil => simp at h
  | cons p rest ih =>
    obtain ⟨kp, wp⟩ := p
    simp only [List.map_cons, List.nodup_cons] at hnd
    by_cases hk : kp = k
    · subst hk
      have hrest : ∀ q ∈ rest, (fun p => if p.1 = kp then (kp, v) else p) q = id q := by
        intro q hq
        have hne : q.1 ≠ kp := fun hc => hnd.1 (hc ▸ List.mem_map_of_mem Prod.fst hq)
        simp [hne]
      have h1 : mapInsert ((kp, wp) :: rest) kp v = (kp, v) :: rest := by
        simp [mapInsert]
      have h2 : ((kp, wp) :: rest).map (fun p => if p.1 = kp then (kp, v) else p) =
          (kp, v) :: rest := by
        rw [List.map_cons, List.map_congr_left hrest, List.map_id]
        norm_num
      rw [h1, h2]
    · have hmem : k ∈ rest.map Prod.fst := by
        simp only [List.map_cons, List.mem_cons] at h
        rcases h with h | h
        · exact absurd h.symm hk
        · exact h
      have h1 : mapInsert ((kp, wp) :: rest) k v = (kp, wp) :: mapInsert rest k v := by
        simp [mapInsert, hk]
      rw [h1, List.map_cons, ih hnd.2 hmem]
      simp [hk]

theorem keys_mapInsert {α : Type} (m : List (String × α)) (k : String) (v : α)
    (h : k ∈ m.map Prod.fst) :
    (mapInsert m k v).map Prod.fst = m.map Prod.fst := by
  induction m with
  | nil => simp at h
  | cons p rest ih =>
    obtain ⟨kp, wp⟩ := p
    by_cases hk : kp = k
    · subst hk
      have h1 : mapInsert ((kp, wp) :: rest) kp v = (kp, v) :: rest := by
        simp [mapInsert]
      rw [h1]
      simp
    · have hmem : k ∈ rest.map Prod.fst := by
        simp only [List.map_cons, List.mem_cons] at h
        rcases h with h | h
        · exact absurd h.symm hk
        · exact h
      have h1 : mapInsert ((kp, wp) :: rest) k v = (kp, wp) :: mapInsert rest k v := by
        simp [mapInsert, hk]
      rw [h1, List.map_cons, List.map_cons, ih hmem]

theorem range_map_getD_self (l : List ℕ) :
    (List.range l.length).map (fun j => l.getD j 0) = l := by
  apply List.ext_getElem
  · simp
  · intro i h1 h2
    simp only [List.getElem_map, List.getElem_range]
    rw [List.getD_eq_getElem l 0 h2]

/-- The write loop of set_joint_generalized_value over a well-formed store
replaces every listed joint entry by its slice of the generalized vector. -/
theorem set_gen_loop_eq (jm : JointModel) (gv : List ℚ) :
    ∀ (keys : List String) (m : JMap), keys.Nodup → (m.map Prod.fst).Nodup →
    (∀ k ∈ keys, k ∈ m.map Prod.fst) →
    (∀ k ∈ keys, ∀ w, mapFind m k = some w → w.length = (jm.dof_coord k).length) →
    set_gen_loop jm gv m keys =
      .ok (m.map (fun p => if p.1 ∈ keys then (p.1, genWrite jm gv p.1) else p)) := by
  intro keys
  induction keys with
  | nil =>
    intro m _ _ _ _
    have hid : ∀ p ∈ m, (fun p =>
        if p.1 ∈ ([] : List String) then (p.1, genWrite jm gv p.1) else p) p = id p :=
      fun p _ => by simp
    have hm : m.map (fun p =>
        if p.1 ∈ ([] : List String) then (p.1, genWrite jm gv p.1) else p) = m := by
      rw [List.map_congr_left hid, List.map_id]
    rw [hm]
    rfl
  | cons key rest ih =>
    intro m hnd hmnd hkeys hsz
    have hkm : key ∈ m.map Prod.fst := hkeys key (by simp)
    obtain ⟨w, hw⟩ := mapFind_some_of_mem_keys m key hkm
    have hwlen : w.length = (jm.dof_coord key).length := hsz key (by simp) w hw
    have hnd2 := List.nodup_cons.mp hnd
    have hstep : set_gen_loop jm gv m (key :: rest) =
        set_gen_loop jm gv (mapInsert m key (genWrite jm gv key)) rest := by
      simp [set_gen_loop, mapIndex, hw, hwlen]
    have hkeys1 : (mapInsert m key (genWrite jm gv key)).map Prod.fst = m.map Prod.fst :=
      keys_mapInsert m key _ hkm
    have hrec := ih (mapInsert m key (genWrite jm gv key)) hnd2.2
      (by rw [hkeys1]; exact hmnd)
      (by intro k hk; rw [hkeys1]; exact hkeys k (List.mem_cons_of_mem _ hk))
      (by
        intro k hk w2 hw2
        have hne : k ≠ key := fun hc => hnd2.1 (hc ▸ hk)
        rw [mapFind_mapInsert_ne m key k _ hne] at hw2
        exact hsz k (List.mem_cons_of_mem _ hk) w2 hw2)
    rw [hstep, hrec]
    congr 1
    rw [mapInsert_eq_map m key _ hmnd hkm, List.map_map]
    refine List.map_congr_left (fun p hp => ?_)
    by_cases hpk : p.1 = key
    · have hknr : key ∉ rest := hnd2.1
      simp [Function.comp, hpk, hknr]
    · by_cases hpr : p.1 ∈ rest
      · simp [Function.comp, hpk, hpr, List.mem_cons]
      · simp [Function.comp, hpk, hpr, List.mem_cons]

theorem setfold_length (f : ℕ → ℚ) :
    ∀ (idxs : List ℕ) (acc : List ℚ),
    (idxs.foldl (fun a k => a.set k (f k)) acc).length = acc.length := by
  intro idxs
  induction idxs with
  | nil => intro acc; rfl
  | cons i rest ih =>
    intro acc
    simp only [List.foldl_cons]
    rw [ih]
    simp

theorem setfold_getD (f : ℕ → ℚ) :
    ∀ (idxs : List ℕ) (acc : List ℚ) (k : ℕ),
    (idxs.foldl (fun a k2 => a.set k2 (f k2)) acc).getD k 0 =
      if k ∈ idxs ∧ k < acc.length then f k else acc.getD k 0 := by
  intro idxs
  induction idxs with
  | nil => intro acc k; simp
  | cons i rest ih =>
    intro acc k
    simp only [List.foldl_cons]
    rw [ih, List.length_set]
    by_cases hkl : k < acc.length
    · by_cases hkr : k ∈ rest
      · simp [hkr, hkl, List.mem_cons]
      · rw [if_neg (by simp [hkr]), getD_set]
        by_cases hki : k = i
        · subst hki
          rw [if_pos ⟨rfl, hkl⟩, if_pos (by simp [hkl])]
        · rw [if_neg (fun hc => hki hc.1),
            if_neg (by simp [List.mem_cons, hki, hkr])]
    · rw [if_neg (by tauto), if_neg (by tauto), getD_set,
        if_neg (by omega)]

theorem scatterWrites_genWrite (jm : JointModel) (gv : List ℚ) (key : String)
    (gv0 : List ℚ) :
    scatterWrites gv0 (jm.dof_coord key) (genWrite jm gv key) =
      (jm.dof_coord key).foldl (fun a k => a.set k (gv.getD k 0)) gv0 := by
  unfold scatterWrites
  have hlen : (genWrite jm gv key).length = (jm.dof_coord key).length := by
    simp [genWrite]
  rw [hlen]
  have hbody : ∀ (a : List ℚ), ∀ j ∈ List.range (jm.dof_coord key).length,
      a.set ((jm.dof_coord key).getD j 0) ((genWrite jm gv key).getD j 0) =
      a.set ((jm.dof_coord key).getD j 0)
        (gv.getD ((jm.dof_coord key).getD j 0) 0) := by
    intro a j hj
    simp only [List.mem_range] at hj
    congr 1
    unfold genWrite
    rw [List.getD_eq_getElem _ _ (by simpa using hj)]
    simp [List.getElem_map, List.getElem_range]
  rw [List.foldl_ext _ _ gv0 hbody]
  conv_rhs => rw [← range_map_getD_self (jm.dof_coord key)]
  rw [List.foldl_map]

theorem gen_gather_eq (jm : JointModel) (gv : List ℚ) :
    ∀ (entries : JMap) (gv0 : List ℚ),
    (∀ p ∈ entries, p.2 = genWrite jm gv p.1) →
    gen_gather jm entries gv0 =
      (entries.flatMap (fun p => jm.dof_coord p.1)).foldl
        (fun a k => a.set k (gv.getD k 0)) gv0 := by
  intro entries
  induction entries with
  | nil => intro gv0 _; simp [gen_gather]
  | cons p rest ih =>
    intro gv0 hp
    obtain ⟨id, w⟩ := p
    have hw : w = genWrite jm gv id := hp (id, w) (by simp)
    simp only [gen_gather]
    rw [hw, scatterWrites_genWrite]
    rw [ih _ (fun q hq => hp q (List.mem_cons_of_mem _ hq))]
    rw [List.flatMap_cons, List.foldl_append]

/-- Exact-arithmetic Stage II: adding any null-space update P w to z leaves
the residual R z - jerr unchanged, because null(RᵀR) = null(R). -/
theorem stage2_residual_eq {g n k : ℕ} (R : Matrix (Fin g) (Fin n) ℚ)
    (P : Matrix (Fin n) (Fin k) ℚ) (z : Fin n → ℚ) (w : Fin k → ℚ)
    (jerr : Fin g → ℚ) (h : Rᵀ * R * P = 0) :
    resSq R (z + P.mulVec w) jerr = resSq R z jerr := by
  have hRP : R * P = 0 := matrix_RP_zero R P h
  have hmv : R.mulVec (z + P.mulVec w) = R.mulVec z := by
    rw [Matrix.mulVec_add, Matrix.mulVec_mulVec, hRP, Matrix.zero_mulVec, add_zero]
  unfold resSq
  rw [hmv]

/-- At any LCP solution of the Stage-I system (whose constraint block is the
identity on the first nc entries and whose b is zero), the extracted
x_i = z_i - z_{n+i} is nonnegative for the first nc entries: those are the
normal impulses cn. -/
theorem stage1_extract_nonneg (n nc : ℕ) (Q : MatF) (c : VecF) (zzz : VecF)
    (hnc : nc ≤ n)
    (hsol : isLCPSolution (buildMMM n nc Q (stage1A nc))
      (buildqqq n nc c stage1b) (2 * n + nc) zzz) :
    ∀ i < nc, 0 ≤ zzz i - zzz (n + i) := by
  intro i hi
  obtain ⟨hz, hw, hcomp⟩ := hsol
  have hrow := hw (2 * n + i) (by omega)
  have hsum : mvmul (buildMMM n nc Q (stage1A nc)) (2 * n + nc) zzz (2 * n + i) =
      zzz i - zzz (n + i) := by
    unfold mvmul
    rw [sumTo_eq_sum]
    have hrw : ∀ j ∈ Finset.range (2 * n + nc),
        buildMMM n nc Q (stage1A nc) (2 * n + i) j * zzz j =
        MMM_spec n Q (stage1A nc) (2 * n + i) j * zzz j := by
      intro j hj
      rw [buildMMM_eq n nc Q (stage1A nc) (2 * n + i) j (by omega)
        (Finset.mem_range.mp hj)]
    rw [Finset.sum_congr rfl hrw]
    have hpair_sub : ({i, n + i} : Finset ℕ) ⊆ Finset.range (2 * n + nc) := by
      intro x hx
      simp only [Finset.mem_insert, Finset.mem_singleton] at hx
      rcases hx with rfl | rfl <;> simp only [Finset.mem_range] <;> omega
    have hzero : ∀ j ∈ Finset.range (2 * n + nc), j ∉ ({i, n + i} : Finset ℕ) →
        MMM_spec n Q (stage1A nc) (2 * n + i) j * zzz j = 0 := by
      intro j hj hnotin
      simp only [Finset.mem_insert, Finset.mem_singleton, not_or] at hnotin
      unfold MMM_spec
      rw [if_neg (by omega), if_neg (by omega)]
      have hsub : 2 * n + i - 2 * n = i := by omega
      rw [hsub]
      by_cases hj1 : j < n
      · rw [if_pos hj1]
        unfold stage1A
        rw [if_neg (fun hc => hnotin.1 hc.1.symm), zero_mul]
      · rw [if_neg hj1]
        by_cases hj2 : j < 2 * n
        · rw [if_pos hj2]
          unfold stage1A
          rw [if_neg (by omega), neg_zero, zero_mul]
        · rw [if_neg hj2, zero_mul]
    rw [← Finset.sum_subset hpair_sub hzero]
    have hne : i ≠ n + i := by omega
    rw [Finset.sum_pair hne]
    have hfi : MMM_spec n Q (stage1A nc) (2 * n + i) i * zzz i = zzz i := by
      unfold MMM_spec stage1A
      rw [if_neg (by omega), if_neg (by omega)]
      have hsub : 2 * n + i - 2 * n = i := by omega
      rw [hsub, if_pos (by omega), if_pos ⟨rfl, hi⟩, one_mul]
    have hfni : MMM_spec n Q (stage1A nc) (2 * n + i) (n + i) * zzz (n + i) =
        -(zzz (n + i)) := by
      unfold MMM_spec stage1A
      rw [if_neg (by omega), if_neg (by omega)]
      have hsub : 2 * n + i - 2 * n = i := by omega
      have hsub2 : n + i - n = i := by omega
      rw [hsub, if_neg (by omega), if_pos (by omega), hsub2,
        if_pos ⟨rfl, hi⟩, neg_mul, one_mul]
    rw [hfi, hfni]
    ring
  have hq : buildqqq n nc c stage1b (2 * n + i) = 0 := by
    rw [buildqqq_eq n nc c stage1b _ (by omega)]
    unfold qqq_spec stage1b
    rw [if_neg (by omega), if_neg (by omega), neg_zero]
  rw [hsum, hq, add_zero] at hrow
  exact hrow

/-! # Claims -/

/-- C1, counterexample: contrary to the claim, attempting to write the
load_goal unit while the controller phase is PERCEPTION does not raise
PhaseViolation; check_phase accepts the write and moves the phase straight
to CONTROL (robot.h lines 406-409). -/
theorem C1_counterexample :
    check_phase unit_e.load_goal ControllerPhase.PERCEPTION =
      Except.ok ControllerPhase.CONTROL := rfl

/-- C1, amended: writing load_goal in PERCEPTION is accepted and moves the
phase directly to CONTROL (no PhaseViolation, and the tick proceeds rather
than aborting).  The INCREMENT machine accepts exactly
INITIALIZATION→PERCEPTION, PERCEPTION→PLANNING, PLANNING→CONTROL and
CONTROL→WAITING and throws from WAITING; WAITING→PERCEPTION is performed by
reset_phase.  Beyond keeping the phase, the only transitions check_phase
itself makes are PERCEPTION→PLANNING, PERCEPTION→CONTROL and
PLANNING→CONTROL. -/
theorem C1_phase_machine :
    check_phase load_goal PERCEPTION = Except.ok CONTROL ∧
    (∀ p q : ControllerPhase, increment_phase INCREMENT p = Except.ok q ↔
      ((p = INITIALIZATION ∧ q = PERCEPTION) ∨ (p = PERCEPTION ∧ q = PLANNING) ∨
       (p = PLANNING ∧ q = CONTROL) ∨ (p = CONTROL ∧ q = WAITING))) ∧
    (∀ p : ControllerPhase, reset_phase p = PERCEPTION) ∧
    (∀ (u : unit_e) (p q : ControllerPhase), check_phase u p = Except.ok q →
      q = p ∨ (p = PERCEPTION ∧ q = PLANNING) ∨ (p = PERCEPTION ∧ q = CONTROL) ∨
      (p = PLANNING ∧ q = CONTROL)) :=
  ⟨rfl, by decide, by decide, by decide⟩

/-- Witness for C1_phase_machine: the CONTROL-class write from PLANNING is
one of the listed extra transitions. -/
theorem C1_phase_machine_witness :
    CONTROL = PLANNING ∨ (PLANNING = PERCEPTION ∧ CONTROL = PLANNING) ∨
    (PLANNING = PERCEPTION ∧ CONTROL = CONTROL) ∨
    (PLANNING = PLANNING ∧ CONTROL = CONTROL) :=
  C1_phase_machine.2.2.2 load_goal PLANNING CONTROL (by decide)

/-- C2, counterexample: contrary to the claim, a write of the measured unit
`position` succeeds while the controller phase is WAITING (robot.h line 380
also admits INITIALIZATION and WAITING). -/
theorem C2_counterexample :
    exceptOk (set_joint_value
      { controller_phase := WAITING, state := fun _ => [("LF_HIP_AA", [0])] }
      "LF_HIP_AA" position [1]) = true := rfl

/-- C2, amended: a size-correct store write through set_joint_value succeeds
exactly when check_phase admits the unit in the current phase, and the
admitted phases are: measured units (misc_sensor, position, velocity,
acceleration, load) in PERCEPTION, INITIALIZATION or WAITING; goal units
(misc_planner, position_goal, velocity_goal, acceleration_goal) in PLANNING,
INITIALIZATION, WAITING or PERCEPTION (auto-advancing to PLANNING);
misc_controller and load_goal in CONTROL, INITIALIZATION, WAITING, PLANNING
or PERCEPTION (auto-advancing to CONTROL); any other phase raises
PhaseViolation. -/
theorem C2_write_gating :
    (∀ (r : RobotState) (id : String) (u : unit_e) (v : List ℚ),
        (mapIndex (r.state u) id).2.length = v.length →
        ((∃ r2, set_joint_value r id u v = Except.ok r2) ↔
          exceptOk (check_phase u r.controller_phase) = true)) ∧
    (∀ (u : unit_e) (p : ControllerPhase),
        exceptOk (check_phase u p) = allowedWrite u p) := by
  constructor
  · intro r id u v hlen
    cases hc : check_phase u r.controller_phase with
    | error e => simp [set_joint_value, hc, exceptOk, Except.bind, Bind.bind]
    | ok p => simp [set_joint_value, hc, exceptOk, Except.bind, Bind.bind, hlen]
  · decide

/-- Witness for C2_write_gating: a position write from PERCEPTION on a store
holding a one-dof entry. -/
theorem C2_write_gating_witness :
    (∃ r2, set_joint_value
        { controller_phase := PERCEPTION, state := fun _ => [("J", [0])] }
        "J" position [2] = Except.ok r2) ↔
      exceptOk (check_phase position PERCEPTION) = true :=
  C2_write_gating.1
    { controller_phase := PERCEPTION, state := fun _ => [("J", [0])] }
    "J" position [2] rfl

/-- C4: for each contact row i < nc of the friction estimator (cf = z after
Stage II, estimatefrict.cpp line 381), with cn = cf[i], beta_s = cf[nc+i]
and beta_t = cf[2nc+i]: when cn > 0 the estimator writes
MU(i,0) = sqrt(beta_s^2 + beta_t^2)/cn, and when cn ≤ 0 it writes sqrt(-1),
i.e. NaN (modelled as none). -/
theorem C4_mu_extraction (s : ℚ → ℚ) (cf : VecF) (nc i : ℕ) (hi : i < nc) :
    (0 < cf i →
      (frictionMU s cf nc).getD i none =
        some (s (cf (nc + i) * cf (nc + i) + cf (2 * nc + i) * cf (2 * nc + i)) / cf i)) ∧
    (cf i ≤ 0 → (frictionMU s cf nc).getD i none = none) := by
  have hget : (frictionMU s cf nc).getD i none = MU_entry s cf nc i := by
    unfold frictionMU
    rw [List.getD_eq_getElem?_getD]
    simp [List.getElem?_map, List.getElem?_range hi]
  constructor
  · intro h
    have hnn : ¬ (cf (nc + i) * cf (nc + i) + cf (2 * nc + i) * cf (2 * nc + i) < 0) := by
      push_neg
      exact add_nonneg (mul_self_nonneg _) (mul_self_nonneg _)
    rw [hget]
    unfold MU_entry sqrtD
    rw [if_pos h, if_neg hnn]
    rfl
  · intro h
    rw [hget]
    unfold MU_entry sqrtD
    rw [if_neg (not_lt.mpr h), if_pos (by norm_num)]

/-- Witness for C4_mu_extraction at nc = 1, i = 0, cf identically 1,
s the identity. -/
theorem C4_mu_extraction_witness :
    (frictionMU id (fun _ => (1 : ℚ)) 1).getD 0 none = some (id ((1 : ℚ) * 1 + 1 * 1) / 1) :=
  (C4_mu_extraction id (fun _ => (1 : ℚ)) 1 0 (by decide)).1 (by norm_num)

/-- C5, counterexample: contrary to the claim, the Stage-I solution need not
satisfy z ≥ 0.  For the concrete one-contact data (R the identity, j_err
carrying a unit pull along the first tangent), zzzcx is an exact solution of
the Stage-I LCP assembled by solve_qp (so a conforming Lemke solver may
return it), and the extracted Stage-I vector has x_1 = -1 < 0: the
tangential impulses of the [N S T] formulation are signed. -/
theorem C5_counterexample :
    isLCPSolution (buildMMM 3 1 (stage1Q Rcx 3) (stage1A 1))
      (buildqqq 3 1 (stage1c Rcx 3 jstarcx) stage1b) 7 zzzcx ∧
    (solve_qp (fun _ _ _ => some zzzcx) 3 1 (stage1Q Rcx 3)
      (stage1c Rcx 3 jstarcx) (stage1A 1) stage1b).x 1 < 0 := by
  refine ⟨⟨?_, ?_, ?_⟩, ?_⟩
  · intro i hi
    interval_cases i <;> norm_num [zzzcx]
  · intro i hi
    interval_cases i <;>
      norm_num [mvmul, sumTo, buildMMM, buildqqq, setblock, set_sub_vec, zeroM,
        negM, negV, transposeF, stage1Q, stage1c, stage1A, stage1b, mmulF,
        buildR, buildST, Ncx, Dcx, jstarcx, zzzcx, Rcx]
  · norm_num [mvmul, sumTo, buildMMM, buildqqq, setblock, set_sub_vec, zeroM,
      negM, negV, transposeF, stage1Q, stage1c, stage1A, stage1b, mmulF,
      buildR, buildST, Ncx, Dcx, jstarcx, zzzcx, Rcx]
  · norm_num [solve_qp, zzzcx]

/-- C5, amended: in exact arithmetic the Stage-II update z + P w leaves the
least-squares residual ‖R z − j_err‖ unchanged (hence it does not increase)
whenever the extracted P is an exact null space of Q = RᵀR; and of the
Stage-I solution only the first nc entries — the normal impulses, which the
constraint rows A = [I_nc 0], b = 0 protect — are guaranteed nonnegative at
any LCP solution of the assembled system. -/
theorem C5_stage_properties :
    (∀ (g n k : ℕ) (R : Matrix (Fin g) (Fin n) ℚ) (P : Matrix (Fin n) (Fin k) ℚ)
      (z : Fin n → ℚ) (w : Fin k → ℚ) (jerr : Fin g → ℚ),
      Rᵀ * R * P = 0 →
      resSq R (z + P.mulVec w) jerr = resSq R z jerr) ∧
    (∀ (n nc : ℕ) (Q : MatF) (c : VecF) (zzz : VecF), nc ≤ n →
      isLCPSolution (buildMMM n nc Q (stage1A nc)) (buildqqq n nc c stage1b)
        (2 * n + nc) zzz →
      ∀ i < nc, 0 ≤ zzz i - zzz (n + i)) :=
  ⟨fun _ _ _ R P z w jerr h => stage2_residual_eq R P z w jerr h,
   fun n nc Q c zzz hnc hsol => stage1_extract_nonneg n nc Q c zzz hnc hsol⟩

/-- Witness for C5_stage_properties: the residual identity at a concrete
zero matrix, and nonnegativity of the extracted normal impulse of the
concrete Stage-I solution zzzcx. -/
theorem C5_stage_properties_witness :
    resSq (0 : Matrix (Fin 1) (Fin 1) ℚ)
      ((fun _ => 1) + (0 : Matrix (Fin 1) (Fin 1) ℚ).mulVec (fun _ => 1))
      (fun _ => 1) =
      resSq (0 : Matrix (Fin 1) (Fin 1) ℚ) (fun _ => 1) (fun _ => 1) ∧
    0 ≤ zzzcx 0 - zzzcx 3 := by
  constructor
  · exact C5_stage_properties.1 1 1 1 0 0 (fun _ => 1) (fun _ => 1) (fun _ => 1)
      (by simp)
  · refine C5_stage_properties.2 3 1 (stage1Q Rcx 3) (stage1c Rcx 3 jstarcx)
      zzzcx (by omega) ⟨?_, ?_, ?_⟩ 0 (by omega)
    · intro i hi
      interval_cases i <;> norm_num [zzzcx]
    · intro i hi
      interval_cases i <;>
        norm_num [mvmul, sumTo, buildMMM, buildqqq, setblock, set_sub_vec, zeroM,
          negM, negV, transposeF, stage1Q, stage1c, stage1A, stage1b, mmulF,
          buildR, buildST, Ncx, Dcx, jstarcx, zzzcx, Rcx]
    · norm_num [mvmul, sumTo, buildMMM, buildqqq, setblock, set_sub_vec, zeroM,
        negM, negV, transposeF, stage1Q, stage1c, stage1A, stage1b, mmulF,
        buildR, buildST, Ncx, Dcx, jstarcx, zzzcx, Rcx]

/-- C6: solve_qp assembles the (2n+m)-dimensional LCP whose matrix is the
spec's block form [[Q,-Q,-At],[-Q,Q,At],[A,-A,0]] and whose vector is
[c,-c,-b], hands it to the (regularized Lemke) solver, extracts
x_i = z_i - z_{n+i} for i < n, and returns false exactly when the solver
fails. -/
theorem C6_solve_qp_reduction (lemke : MatF → VecF → ℕ → Option VecF)
    (n m : ℕ) (Q A : MatF) (c b : VecF) :
    (∀ i < 2 * n + m, ∀ j < 2 * n + m, buildMMM n m Q A i j = MMM_spec n Q A i j) ∧
    (∀ i < 2 * n + m, buildqqq n m c b i = qqq_spec n c b i) ∧
    (∀ zzz, lemke (buildMMM n m Q A) (buildqqq n m c b) (2 * n + m) = some zzz →
      (solve_qp lemke n m Q c A b).flag = true ∧
      ∀ i < n, (solve_qp lemke n m Q c A b).x i = zzz i - zzz (n + i)) ∧
    (lemke (buildMMM n m Q A) (buildqqq n m c b) (2 * n + m) = none →
      (solve_qp lemke n m Q c A b).flag = false) := by
  refine ⟨fun i hi j hj => buildMMM_eq n m Q A i j hi hj,
    fun i hi => buildqqq_eq n m c b i hi, ?_, ?_⟩
  · intro zzz hz
    constructor
    · simp [solve_qp, hz]
    · intro i _
      simp [solve_qp, hz]
  · intro hz
    simp [solve_qp, hz]

/-- Witness for C6_solve_qp_reduction: the bottom-left block entry of the
assembled matrix for concrete 1-by-1 data. -/
theorem C6_solve_qp_reduction_witness :
    buildMMM 1 1 (fun _ _ => (5 : ℚ)) (fun _ _ => (7 : ℚ)) 2 0 =
      MMM_spec 1 (fun _ _ => (5 : ℚ)) (fun _ _ => (7 : ℚ)) 2 0 :=
  (C6_solve_qp_reduction (fun _ _ _ => none) 1 1
    (fun _ _ => (5 : ℚ)) (fun _ _ => (7 : ℚ)) (fun _ => 0) (fun _ => 0)).1
    2 (by decide) 0 (by decide)

/-- C9: solve_qp negates all four of its reference arguments in place: on
return Q, c, A and b hold the negation of what was passed in (regardless of
whether Lemke succeeded).  In particular, in the friction estimator, the
vector c the Stage-I caller constructed as -(transpose(R) j_err)
(estimatefrict.cpp lines 184-187) reads back after the Stage-I solve
(line 201) as +transpose(R) j_err, which is what the Stage-II constraint
row construction at line 339 then consumes. -/
theorem C9_solve_qp_mutation (lemke : MatF → VecF → ℕ → Option VecF) (n m : ℕ)
    (Q A : MatF) (c b : VecF) (R : MatF) (ngc : ℕ) (jstar : VecF) :
    (solve_qp lemke n m Q c A b).Q = negM Q ∧
    (solve_qp lemke n m Q c A b).c = negV c ∧
    (solve_qp lemke n m Q c A b).A = negM A ∧
    (solve_qp lemke n m Q c A b).b = negV b ∧
    (∀ i, (solve_qp lemke n m (stage1Q R ngc) (stage1c R ngc jstar) A b).c i =
      mvmul (transposeF R) ngc jstar i) := by
  have hgen : ∀ (Q2 A2 : MatF) (c2 b2 : VecF),
      (solve_qp lemke n m Q2 c2 A2 b2).Q = negM Q2 ∧
      (solve_qp lemke n m Q2 c2 A2 b2).c = negV c2 ∧
      (solve_qp lemke n m Q2 c2 A2 b2).A = negM A2 ∧
      (solve_qp lemke n m Q2 c2 A2 b2).b = negV b2 := by
    intro Q2 A2 c2 b2
    cases h : lemke (buildMMM n m Q2 A2) (buildqqq n m c2 b2) (2 * n + m) <;>
      simp [solve_qp, h]
  refine ⟨(hgen Q A c b).1, (hgen Q A c b).2.1, (hgen Q A c b).2.2.1,
    (hgen Q A c b).2.2.2, ?_⟩
  intro i
  rw [(hgen (stage1Q R ngc) A (stage1c R ngc jstar) b).2.1]
  simp [negV, stage1c, neg_neg]

/-- C10: reading a joint value for an id with no entry in the state store
does not fail: get_joint_value (robot.h line 477, `return _state[u][id]`)
default-inserts an empty entry and returns a zero-length vector, so the read
has a side effect on the store; whereas the generic data map's get_data
(robot.h line 131) raises the not-found runtime error on a missing key. -/
theorem C10_default_insert_read (r : RobotState) (id : String) (u : unit_e)
    (h : mapFind (r.state u) id = none) :
    (get_joint_value r id u).2 = [] ∧
    mapFind ((get_joint_value r id u).1.state u) id = some [] ∧
    (∀ (dm : List (String × List ℚ)) (n : String), mapFind dm n = none →
      get_data dm n = Except.error ("Variable: " ++ n ++ " not found in data!")) := by
  refine ⟨?_, ?_, ?_⟩
  · simp only [get_joint_value, mapIndex, h]
    rfl
  · simp only [get_joint_value, mapIndex, h]
    rw [Function.update_same]
    exact mapFind_append_of_none _ _ _ h
  · intro dm n hm
    simp [get_data, hm]

/-- Witness for C10_default_insert_read: reading joint J from an empty
store. -/
theorem C10_default_insert_read_witness :
    (get_joint_value { controller_phase := PERCEPTION, state := fun _ => [] }
      "J" position).2 = [] ∧
    mapFind ((get_joint_value
      { controller_phase := PERCEPTION, state := fun _ => [] }
      "J" position).1.state position) "J" = some [] ∧
    (∀ (dm : List (String × List ℚ)) (n : String), mapFind dm n = none →
      get_data dm n = Except.error ("Variable: " ++ n ++ " not found in data!")) :=
  C10_default_insert_read
    { controller_phase := PERCEPTION, state := fun _ => [] } "J" position rfl

/-- C3, counterexample: contrary to the claim, Quadruped::control applies no
torque-limit clamp to the commanded torque u: the table torque_limits_ set
up by Quadruped::init (limit 2.6 for BODY_JOINT) is never read by control,
which emits u = ufb + uff (quadruped.cc lines 203-206).  With the joint-0
feedback at its spec-clamped bound 2.6 and a feed-forward inverse-dynamics
torque of 2.6, the emitted entry is 5.2, above the limit. -/
theorem C3_counterexample :
    mapFind torque_limits_ "BODY_JOINT" = some (26 / 10) ∧
    |(control_u
        (pid_ufb 100000 1000 0 1 0 0 (26 / 10) :: List.replicate 12 0)
        ((26 / 10) :: List.replicate 12 0)).getD 0 0| > 26 / 10 := by
  constructor
  · rfl
  · norm_num [control_u, pid_ufb, clampT, torque_limits_, abs_of_nonneg]

/-- C3, amended: the torque vector emitted by Quadruped::control is exactly
the unclamped elementwise sum u = ufb + uff; no per-joint torque-limit
clamping is applied between that sum and the return, so |u_i| exceeds
torque_limit_i whenever |ufb_i + uff_i| does. -/
theorem C3_torque_assembly (ufb uff : List ℚ) (i : ℕ)
    (h1 : i < ufb.length) (h2 : i < uff.length) :
    (control_u ufb uff).getD i 0 = ufb.getD i 0 + uff.getD i 0 ∧
    (control_u ufb uff).length = min ufb.length uff.length := by
  have hl : (control_u ufb uff).length = min ufb.length uff.length := by
    simp [control_u]
  refine ⟨?_, hl⟩
  have hi : i < (control_u ufb uff).length := by
    rw [hl]; omega
  rw [List.getD_eq_getElem _ _ hi, List.getD_eq_getElem _ _ h1,
    List.getD_eq_getElem _ _ h2]
  simp [control_u, List.getElem_zipWith]

/-- C7: on a well-formed store (store keys are exactly the joint ids, every
entry sized to its joint's DOF count, the joint coordinate lists within
range, pairwise consistent and jointly covering all NUM_JOINT_DOFS
coordinates) and in a phase where the write is legal,
set_joint_generalized_value u v followed by get_joint_generalized_value u
returns v exactly. -/
theorem C7_generalized_roundtrip (jm : JointModel) (r : RobotState) (u : unit_e)
    (gv : List ℚ)
    (hlen : gv.length = jm.NUM_JOINT_DOFS)
    (hkeys : (r.state u).map Prod.fst = jm.joint_ids)
    (hnodup : jm.joint_ids.Nodup)
    (hsz : ∀ p ∈ r.state u, (p.2 : List ℚ).length = (jm.dof_coord p.1).length)
    (hbound : ∀ id ∈ jm.joint_ids, ∀ k ∈ jm.dof_coord id, k < jm.NUM_JOINT_DOFS)
    (hcover : ∀ k < jm.NUM_JOINT_DOFS, ∃ id ∈ jm.joint_ids, k ∈ jm.dof_coord id)
    (hphase : exceptOk (check_phase u r.controller_phase) = true) :
    ∃ r2, set_joint_generalized_value jm r u gv = Except.ok r2 ∧
      get_joint_generalized_value jm r2 u = gv := by
  cases hcp : check_phase u r.controller_phase with
  | error e => rw [hcp] at hphase; simp [exceptOk] at hphase
  | ok p =>
  have hmnd : ((r.state u).map Prod.fst).Nodup := by rw [hkeys]; exact hnodup
  have hloop := set_gen_loop_eq jm gv jm.joint_ids (r.state u) hnodup hmnd
    (by intro k hk; rw [hkeys]; exact hk)
    (by
      intro k _ w hw
      exact hsz (k, w) (mapFind_mem _ _ _ hw))
  have hallmem : ∀ q ∈ r.state u, q.1 ∈ jm.joint_ids := by
    intro q hq
    rw [← hkeys]
    exact List.mem_map_of_mem Prod.fst hq
  have hM2 : (r.state u).map (fun q =>
      if q.1 ∈ jm.joint_ids then (q.1, genWrite jm gv q.1) else q) =
      (r.state u).map (fun q => (q.1, genWrite jm gv q.1)) :=
    List.map_congr_left (fun q hq => by simp [hallmem q hq])
  rw [hM2] at hloop
  refine ⟨{ controller_phase := p,
            state := Function.update r.state u
              ((r.state u).map (fun q => (q.1, genWrite jm gv q.1))) }, ?_, ?_⟩
  · simp [set_joint_generalized_value, hcp, hlen, hloop, Except.bind, Bind.bind]
  · unfold get_joint_generalized_value
    show gen_gather jm
      (Function.update r.state u
        ((r.state u).map (fun q => (q.1, genWrite jm gv q.1))) u)
      (List.replicate jm.NUM_JOINT_DOFS 0) = gv
    rw [Function.update_same]
    rw [gen_gather_eq jm gv _ _ (by
      intro q hq
      obtain ⟨q0, _, rfl⟩ := List.mem_map.mp hq
      rfl)]
    set M2 := (r.state u).map (fun q => (q.1, genWrite jm gv q.1)) with hM2def
    have hM2keys : M2.map Prod.fst = jm.joint_ids := by
      rw [hM2def, List.map_map]
      exact hkeys
    have hzlen : (List.replicate jm.NUM_JOINT_DOFS (0 : ℚ)).length =
        jm.NUM_JOINT_DOFS := by simp
    apply List.ext_getElem
    · rw [setfold_length, hzlen, hlen]
    · intro k h1 h2
      have hkN : k < jm.NUM_JOINT_DOFS := by
        rw [setfold_length, hzlen] at h1
        exact h1
      have hmem : k ∈ M2.flatMap (fun q => jm.dof_coord q.1) := by
        obtain ⟨id, hid, hkd⟩ := hcover k hkN
        have : id ∈ M2.map Prod.fst := by rw [hM2keys]; exact hid
        obtain ⟨q, hq, hq1⟩ := List.mem_map.mp this
        exact List.mem_flatMap.mpr ⟨q, hq, hq1 ▸ hkd⟩
      have hgetD := setfold_getD (fun k2 => gv.getD k2 0)
        (M2.flatMap (fun q => jm.dof_coord q.1))
        (List.replicate jm.NUM_JOINT_DOFS (0 : ℚ)) k
      rw [hzlen] at hgetD
      rw [← List.getD_eq_getElem _ 0 h1, ← List.getD_eq_getElem _ 0 h2]
      rw [hgetD, if_pos ⟨hmem, hkN⟩]

/-- Witness for C7_generalized_roundtrip: two joints of 1 and 2 DOFs, three
generalized coordinates, writing [5, 7, 11] from INITIALIZATION. -/
theorem C7_generalized_roundtrip_witness :
    ∃ r2, set_joint_generalized_value
        { joint_ids := ["J1", "J2"],
          dof_coord := fun id => if id = "J1" then [0] else
            if id = "J2" then [1, 2] else [],
          NUM_JOINT_DOFS := 3 }
        { controller_phase := INITIALIZATION,
          state := fun _ => [("J1", [0]), ("J2", [0, 0])] }
        position [5, 7, 11] = Except.ok r2 ∧
      get_joint_generalized_value
        { joint_ids := ["J1", "J2"],
          dof_coord := fun id => if id = "J1" then [0] else
            if id = "J2" then [1, 2] else [],
          NUM_JOINT_DOFS := 3 } r2 position = [5, 7, 11] :=
  C7_generalized_roundtrip
    { joint_ids := ["J1", "J2"],
      dof_coord := fun id => if id = "J1" then [0] else
        if id = "J2" then [1, 2] else [],
      NUM_JOINT_DOFS := 3 }
    { controller_phase := INITIALIZATION,
      state := fun _ => [("J1", [0]), ("J2", [0, 0])] }
    position [5, 7, 11] (by decide) (by decide) (by decide) (by decide)
    (by decide) (by decide) (by decide)

/-- C8: from a phase in which reset_contact is legal (WAITING or
INITIALIZATION), the contact map is empty immediately after reset_contact,
and after adding k contacts (each on a listed link) through add_contact,
get_all_contacts returns exactly those k contacts (a permutation, grouped by
link) and reports k as the count; get_contacts's map is empty right after
the reset. -/
theorem C8_contact_roundtrip (cs : ContactState) (cl : List contact_t)
    (hphase : cs.controller_phase = WAITING ∨ cs.controller_phase = INITIALIZATION)
    (hnodup : cs.link_ids.Nodup)
    (hids : ∀ c ∈ cl, c.id ∈ cs.link_ids) :
    ∃ cs1 cs2, reset_contact cs = .ok cs1 ∧
      (∀ id, get_contacts cs1 id = []) ∧
      add_contacts cs1 cl = .ok cs2 ∧
      (get_all_contacts cs2 []).1.Perm cl ∧
      (get_all_contacts cs2 []).2 = cl.length := by
  have hcp : check_phase clean_up cs.controller_phase =
      Except.ok cs.controller_phase := by
    rcases hphase with h | h <;> rw [h] <;> rfl
  have hreset : reset_contact cs = Except.ok
      { cs with id_contacts_map := fun _ => [] } := by
    simp [reset_contact, hcp, Except.bind, Bind.bind]
  obtain ⟨cs2, hadd, hph, hli, hmap⟩ := add_contacts_spec cl
    { cs with id_contacts_map := fun _ => [] }
    (by rcases hphase with h | h <;> simp [h])
  have hmap2 : ∀ id, cs2.id_contacts_map id =
      cl.filter (fun c2 => decide (c2.id = id)) := by
    intro id
    rw [hmap id]
    rfl
  have hout : (get_all_contacts cs2 []).1 =
      cs.link_ids.flatMap (fun l => cl.filter (fun c2 => decide (c2.id = l))) := by
    unfold get_all_contacts
    rw [foldl_append_flatMap]
    rw [List.nil_append]
    rw [hli]
    exact List.flatMap_congr (fun l _ => hmap2 l)
  have hperm : (get_all_contacts cs2 []).1.Perm cl := by
    rw [hout]
    exact flatMap_filter_perm cs.link_ids cl hnodup hids
  refine ⟨{ cs with id_contacts_map := fun _ => [] }, cs2, hreset,
    fun id => rfl, hadd, hperm, ?_⟩
  show (get_all_contacts cs2 []).1.length = cl.length
  exact hperm.length_eq

/-- Witness for C8_contact_roundtrip: two contacts on the two listed links,
from WAITING. -/
theorem C8_contact_roundtrip_witness :
    ∃ cs1 cs2,
      reset_contact
        { controller_phase := WAITING,
          id_contacts_map := fun _ => [],
          link_ids := ["LF_FOOT", "RF_FOOT"] } = .ok cs1 ∧
      (∀ id, get_contacts cs1 id = []) ∧
      add_contacts cs1
        [{ id := "LF_FOOT", point := (0, 0, 0), normal := (0, 0, 1),
           tangent := (1, 0, 0), impulse := (0, 0, 0), mu_coulomb := 1,
           mu_viscous := 0, restitution := 0, compliant := false },
         { id := "RF_FOOT", point := (1, 0, 0), normal := (0, 0, 1),
           tangent := (1, 0, 0), impulse := (0, 0, 0), mu_coulomb := 1,
           mu_viscous := 0, restitution := 0, compliant := false }] = .ok cs2 ∧
      (get_all_contacts cs2 []).1.Perm
        [{ id := "LF_FOOT", point := (0, 0, 0), normal := (0, 0, 1),
           tangent := (1, 0, 0), impulse := (0, 0, 0), mu_coulomb := 1,
           mu_viscous := 0, restitution := 0, compliant := false },
         { id := "RF_FOOT", point := (1, 0, 0), normal := (0, 0, 1),
           tangent := (1, 0, 0), impulse := (0, 0, 0), mu_coulomb := 1,
           mu_viscous := 0, restitution := 0, compliant := false }] ∧
      (get_all_contacts cs2 []).2 =
        ([{ id := "LF_FOOT", point := (0, 0, 0), normal := (0, 0, 1),
            tangent := (1, 0, 0), impulse := (0, 0, 0), mu_coulomb := 1,
            mu_viscous := 0, restitution := 0, compliant := false },
          { id := "RF_FOOT", point := (1, 0, 0), normal := (0, 0, 1),
            tangent := (1, 0, 0), impulse := (0, 0, 0), mu_coulomb := 1,
            mu_viscous := 0, restitution := 0, compliant := false }] :
          List contact_t).length :=
  C8_contact_roundtrip
    { controller_phase := WAITING, id_contacts_map := fun _ => [],
      link_ids := ["LF_FOOT", "RF_FOOT"] }
    _ (Or.inl rfl) (by decide) (by decide)

/-- Witness for C3_torque_assembly on one-entry torque vectors. -/
theorem C3_torque_assembly_witness :
    (control_u [(3 : ℚ)] [4]).getD 0 0 = [(3 : ℚ)].getD 0 0 + [(4 : ℚ)].getD 0 0 ∧
    (control_u [(3 : ℚ)] [4]).length = min [(3 : ℚ)].length [(4 : ℚ)].length :=
  C3_torque_assembly [3] [4] 0 (by decide) (by decide)

end Pacer
